import Mathlib

/-
Verification of the project-planner repository (document_analyzer.py,
project_planner.py, utils.py) against its natural-language specification.

Modelling conventions (shallow embedding):

* `datetime.date` values are modelled as `Int` day numbers (days since an
  arbitrary epoch); `timedelta(days=k)` is addition of `k`.
* The cells of the `Start`/`Finish` columns hold strings produced by
  `strftime('%a %m/%d/%y')` and read back by `strptime` with the same
  format.  On the window in which the application operates (years
  1969-2068, reachable from `datetime.now()` plus bounded durations)
  `strftime` is injective and `strptime` is its left inverse, so a date
  cell is coded by the inductive `DateStr`: `DateStr.ofDay d` stands for
  the unique formatted rendering of day number `d`, and `DateStr.invalid s`
  for any string that `strptime` rejects with `ValueError`.
* The `Duration` cell of a generated row is the string `f"{n} days"`;
  since the summary code recovers `n` by `int(d.split()[0])` (and the
  substring test `'days' in d` is true for every such cell), the cell is
  coded by the integer `n` itself (`Row.duration`).
* Python dictionaries with a fixed key set are modelled as structures;
  `random.choice` / `random.randint` and the salted string `hash` are
  modelled as explicit oracle parameters; `nltk.sent_tokenize` is an
  external collaborator, so analyzer functions take the tokenized
  sentence list as input.
-/

namespace PlanSpec

/-- A `Start`/`Finish` cell: either the `strftime('%a %m/%d/%y')` rendering
of day number `day`, or a string that does not parse under that format. -/
inductive DateStr where
  | ofDay (day : Int)
  | invalid (s : String)
deriving DecidableEq, Repr

/-- Model of `datetime.strptime(s, '%a %m/%d/%y')`: succeeds exactly on well-formed
date strings, returning the day number; `none` models the `ValueError`. -/
def strptime : DateStr → Option Int
  | .ofDay d => some d
  | .invalid _ => none

/-- Model of `d.strftime('%a %m/%d/%y')` for a day number `d`. -/
def strftime (d : Int) : DateStr := DateStr.ofDay d

/-- A task record produced by the analyzer (`document_analyzer.py`):
`{'name': ..., 'description': ..., 'priority': ..., 'estimated_duration': ...}`. -/
structure Task where
  name : String
  description : String
  priority : String
  estimated_duration : Nat
deriving DecidableEq, Repr

/-- The part of the analyzer's project-info record that the planner reads
(`project_info.get('name', ...)` and `project_info.get('tasks', [])`);
the remaining fields (description, timeline, phases) are never consumed
by `generate_project_plan`. -/
structure ProjectInfo where
  name : String
  tasks : List Task
deriving DecidableEq, Repr

/-- One row of the plan DataFrame, with the columns
`ID, Name, Active, Task Mode, Duration, Start, Finish, Predecessors,
Outline Level, Notes` (`Duration` coded by its integer, `Start`/`Finish`
by `DateStr`). -/
structure Row where
  id : Nat
  name : String
  active : String
  taskMode : String
  duration : Nat
  start : DateStr
  finish : DateStr
  predecessors : String
  outlineLevel : Nat
  notes : String
deriving DecidableEq, Repr

/-- Placeholder for `tasks[task_index]` lookups (never reached out of range). -/
def defaultTask : Task := { name := "", description := "", priority := "Medium", estimated_duration := 5 }

/-- Python's `str.lower()` (ASCII), computed characterwise so that it
reduces in the kernel. -/
def pyLower (s : String) : String :=
  (s.toList.map Char.toLower).asString

/-- Python's `s[:n]` slice of a string (by characters). -/
def pyTake (s : String) (n : Nat) : String :=
  (s.toList.take n).asString

/-- Case-insensitive-ready substring test: Python's `needle in hay`. -/
def substrOf (needle hay : String) : Bool :=
  hay.toList.tails.any (fun t => needle.toList.isPrefixOf t)

/-- Model of `sep.join(ws)`. -/
def joinSep (sep : String) : List String → String
  | [] => ""
  | [w] => w
  | w :: ws => w ++ sep ++ joinSep sep ws

/-- Model of `ProjectPlanner._calculate_predecessors(task_id, task_index, tasks)`.
`hashO` models Python's salted string `hash`. -/
def _calculate_predecessors (hashO : String → Nat) (task_id task_index : Nat)
    (tasks : List Task) : String :=
  if task_index = 0 then ""
  else if hashO (tasks.getD task_index defaultTask).name % 10 < 6 then toString (task_id - 1)
  else ""

/-- Model of `ProjectPlanner._determine_outline_level(task_name)`. -/
def _determine_outline_level (task_name : String) : Nat :=
  let task_lower := pyLower task_name
  if ["phase", "stage", "planning", "design", "development", "testing", "deployment"].any
      (fun w => substrOf w task_lower) then 1
  else if ["setup", "configure", "create", "implement"].any (fun w => substrOf w task_lower) then 2
  else if ["review", "validate", "test", "document"].any (fun w => substrOf w task_lower) then 3
  else 2

/-- Model of `ProjectPlanner._generate_task_notes(task)`. -/
def _generate_task_notes (task : Task) : String :=
  let description :=
    if task.description.length > 100 then pyTake task.description 97 ++ "..." else task.description
  "Priority: " ++ task.priority ++ ". " ++ description

/-- The `task_row` dictionary built for one task by the loop body of
`generate_project_plan` (index `i` is 0-based, `task_id = i + 1`). -/
def mkTaskRow (hashO : String → Nat) (allTasks : List Task) (task : Task)
    (current_date : Int) (i : Nat) : Row :=
  let task_id := i + 1
  let duration := task.estimated_duration
  let start_date := current_date
  let finish_date := start_date + (duration : Int)
  { id := task_id
    name := task.name
    active := "Yes"
    taskMode := "Auto Scheduled"
    duration := duration
    start := strftime start_date
    finish := strftime finish_date
    predecessors := _calculate_predecessors hashO task_id i allTasks
    outlineLevel := _determine_outline_level task.name
    notes := _generate_task_notes task }

/-- The per-task loop of `generate_project_plan`: walks `tasks` keeping the
running cursor date (`current_date`, advanced by `max(1, duration // 2)`)
and the 0-based index `i`; `allTasks` is the full task list passed to
`_calculate_predecessors`. -/
def planRowsAux (hashO : String → Nat) (allTasks : List Task) :
    List Task → Int → Nat → List Row
  | [], _, _ => []
  | task :: rest, current_date, i =>
    mkTaskRow hashO allTasks task current_date i ::
      planRowsAux hashO allTasks rest
        (current_date + (max 1 (task.estimated_duration / 2) : Nat)) (i + 1)

/-- The Python runtime errors that the planner code can raise or catch. -/
inductive PyError where
  | keyError (key : String)
  | typeError
  | valueError
deriving DecidableEq, Repr

/-- Model of `[datetime.strptime(d, '%a %m/%d/%y') for d in cells]`: parses every
cell, raising `ValueError` at the first malformed one. -/
def parseDates : List DateStr → Except PyError (List Int)
  | [] => .ok []
  | d :: ds =>
    match strptime d with
    | none => .error PyError.valueError
    | some x => (parseDates ds).map (fun l => x :: l)

/-- Python `min` over a list of day numbers (the empty branch is
unreachable in use: `min([])` would raise, but the caller guards on a
non-empty DataFrame). -/
def listMin : List Int → Int
  | [] => 0
  | a :: as => as.foldl min a

/-- Python `max` over a list of day numbers (empty branch unreachable). -/
def listMax : List Int → Int
  | [] => 0
  | a :: as => as.foldl max a

/-- Model of `ProjectPlanner._create_summary_row(project_name, df)`: `.ok none`
models the empty DataFrame returned for an empty `df`; a `ValueError`
from `strptime` propagates to `generate_project_plan`'s handler. -/
def _create_summary_row (project_name : String) (rows : List Row) :
    Except PyError (Option Row) :=
  match rows with
  | [] => .ok none
  | _ :: _ =>
    let total_duration := (rows.map Row.duration).sum
    match parseDates (rows.map Row.start), parseDates (rows.map Row.finish) with
    | .ok start_dates, .ok finish_dates =>
      .ok (some
        { id := 0
          name := project_name
          active := "Yes"
          taskMode := "Auto Scheduled"
          duration := total_duration
          start := strftime (listMin start_dates)
          finish := strftime (listMax finish_dates)
          predecessors := ""
          outlineLevel := 0
          notes := "This roadmap is intended to guide the project execution." })
    | _, _ => .error PyError.valueError

/-- Model of `ProjectPlanner._create_default_plan()` (the fallback returned when
plan generation raises), relative to the planner's default start date. -/
def _create_default_plan (default_start_date : Int) : List Row :=
  [{ id := 1
     name := "Sample Project"
     active := "Yes"
     taskMode := "Auto Scheduled"
     duration := 30
     start := strftime default_start_date
     finish := strftime (default_start_date + 30)
     predecessors := ""
     outlineLevel := 1
     notes := "Default project plan generated" },
   { id := 2
     name := "Planning Phase"
     active := "Yes"
     taskMode := "Auto Scheduled"
     duration := 5
     start := strftime default_start_date
     finish := strftime (default_start_date + 5)
     predecessors := ""
     outlineLevel := 2
     notes := "Project planning and requirements gathering" }]

/-- Model of `df['ID'] = range(1, len(df) + 1)`, starting the count at `n`. -/
def renumberFrom (n : Nat) : List Row → List Row
  | [] => []
  | r :: rs => { r with id := n } :: renumberFrom (n + 1) rs

/-- Model of `ProjectPlanner.generate_project_plan(project_info)`.  `hashO` models
the salted string `hash`; `default_start_date` models
`datetime.now().date()` captured in the constructor.  The `except` branch
(returning `_create_default_plan`) fires exactly when
`_create_summary_row` raises. -/
def generate_project_plan (hashO : String → Nat) (default_start_date : Int)
    (project_info : ProjectInfo) : List Row :=
  let plan_data := planRowsAux hashO project_info.tasks project_info.tasks default_start_date 0
  match _create_summary_row project_info.name plan_data with
  | .error _ => _create_default_plan default_start_date
  | .ok none => renumberFrom 1 plan_data
  | .ok (some summary_row) => renumberFrom 1 (summary_row :: plan_data)

/-- Shift both date cells of a row to the given day numbers and reformat
(`df.at[index, 'Start'] = new_start.strftime(...)` etc.). -/
def shiftRowTo (r : Row) (s f : Int) : Row :=
  { r with start := strftime s, finish := strftime f }

/-- The row-by-row mutation loop of `update_plan_dates`: each row's dates
are parsed and rewritten; a parse failure raises, leaving the rows already
written in place and the rest untouched (the caught exception returns the
partially mutated DataFrame). -/
def updateLoop (date_diff : Int) : List Row → List Row
  | [] => []
  | r :: rs =>
    match strptime r.start, strptime r.finish with
    | some old_start, some old_finish =>
      shiftRowTo r (old_start + date_diff) (old_finish + date_diff) :: updateLoop date_diff rs
    | _, _ => r :: rs

/-- Model of `ProjectPlanner.update_plan_dates(df, new_start_date)`. -/
def update_plan_dates (df : List Row) (new_start_date : Int) : List Row :=
  match df with
  | [] => df
  | r0 :: _ =>
    match strptime r0.start with
    | none => df
    | some current_start => updateLoop (new_start_date - current_start) df

/-- Both date cells of a row parse (no exception when the loop reaches it). -/
def rowParses (r : Row) : Bool :=
  (strptime r.start).isSome && (strptime r.finish).isSome

/-- Shift a row's parseable date cells by `diff`, leaving malformed cells
unchanged (the uniform shift the specification describes). -/
def shiftD (diff : Int) : DateStr → DateStr
  | .ofDay d => .ofDay (d + diff)
  | .invalid s => .invalid s

/-- A row shifted uniformly by `diff`. -/
def shiftRowBy (diff : Int) (r : Row) : Row :=
  { r with start := shiftD diff r.start, finish := shiftD diff r.finish }

/-- Model of `DocumentAnalyzer.task_keywords`. -/
def task_keywords : List String :=
  ["implement", "develop", "create", "build", "design", "test", "deploy",
   "configure", "setup", "install", "analyze", "review", "prepare",
   "execute", "complete", "finish", "deliver", "validate", "verify"]

/-- Splitting a character list at whitespace characters (empty pieces
kept, as `str.split(sep)` would). -/
def splitWsAux : List Char → List Char → List String
  | [], acc => [acc.reverse.asString]
  | c :: cs, acc =>
    if c.isWhitespace then acc.reverse.asString :: splitWsAux cs []
    else splitWsAux cs (c :: acc)

/-- Python's `str.split()` with no argument: split on whitespace runs,
dropping empty pieces. -/
def pySplit (s : String) : List String :=
  (splitWsAux s.toList []).filter (fun w => w ≠ "")

/-- Python's `str.title()`: the first letter of each maximal alphabetic
run is uppercased, the remaining letters lowercased. -/
def pyTitleAux : Bool → List Char → List Char
  | _, [] => []
  | atWordStart, c :: cs =>
    if c.isAlpha then
      (if atWordStart then c.toUpper else c.toLower) :: pyTitleAux false cs
    else
      c :: pyTitleAux true cs

/-- Python's `str.title()`. -/
def pyTitle (s : String) : String :=
  (pyTitleAux true s.toList).asString

/-- Model of `re.sub(r'[^\w\s]', ' ', s)`: every character that is neither a word
character (`[A-Za-z0-9_]`) nor whitespace becomes a space. -/
def subNonWord (s : String) : String :=
  (s.toList.map (fun c =>
    if c.isAlphanum || c = '_' || c.isWhitespace then c else ' ')).asString

/-- Model of `DocumentAnalyzer._generate_task_name(sentence, keyword)`: `none`
models both the `return None` for a missing keyword and the falsy empty
cleaned name. -/
def _generate_task_name (sentence keyword : String) : Option String :=
  let words := pySplit sentence
  match words.findIdx? (fun word => substrOf (pyLower keyword) (pyLower word)) with
  | none => none
  | some keyword_index =>
    let start_idx := keyword_index - 1
    let end_idx := min words.length (keyword_index + 4)
    let task_words := (words.drop start_idx).take (end_idx - start_idx)
    let task_name := joinSep " " task_words
    let task_name := subNonWord task_name
    let task_name := joinSep " " (pySplit task_name)
    if task_name = "" then none else some (pyTitle task_name)

/-- Model of `DocumentAnalyzer._estimate_priority(sentence)`; `randPick` models
`random.choice(['Medium', 'Low'])`. -/
def _estimate_priority (randPick : String) (sentence : String) : String :=
  let high_priority_words := ["critical", "urgent", "important", "key", "essential"]
  if high_priority_words.any (fun w => substrOf w (pyLower sentence)) then "High" else randPick

/-- Digits of a matched `(\d+)` group, as a number. -/
def digitsToNat (ds : List Char) : Nat :=
  ds.foldl (fun n c => n * 10 + (c.toNat - '0'.toNat)) 0

/-- Leftmost match of the regex `(\d+)\s*<unit>` in `chars`, returning the
captured number: at each position a maximal digit run, optional
whitespace, then the unit word as a prefix of the remainder. -/
def scanUnit (unit : List Char) : List Char → Option Nat
  | [] => none
  | c :: rest =>
    if c.isDigit then
      let ds := (c :: rest).takeWhile (fun x => x.isDigit)
      let after := ((c :: rest).dropWhile (fun x => x.isDigit)).dropWhile (fun x => x.isWhitespace)
      if unit.isPrefixOf after then some (digitsToNat ds) else scanUnit unit rest
    else scanUnit unit rest

/-- Model of `DocumentAnalyzer._estimate_duration(sentence)`: the three duration
regexes tried in order on the lowercased sentence, weeks scaled by 7 and
months by 30, capped at 30; `randDur` models the `random.randint(1, 10)`
fallback. -/
def _estimate_duration (randDur : Nat) (sentence : String) : Nat :=
  let lower := (pyLower sentence).toList
  match scanUnit "day".toList lower with
  | some n => min n 30
  | none =>
    match scanUnit "week".toList lower with
    | some n => min (n * 7) 30
    | none =>
      match scanUnit "month".toList lower with
      | some n => min (n * 30) 30
      | none => randDur

/-- The body of the per-sentence scan in `_extract_tasks`: the first
keyword contained in the lowercased sentence (when the sentence has more
than 3 words) is used; the task is kept only if the generated name is
non-`None` and shorter than 100 characters. -/
def sentenceToTask (randPick : String) (randDur : Nat) (sentence : String) : Option Task :=
  let sentence_lower := pyLower sentence
  match task_keywords.find?
      (fun keyword => substrOf keyword sentence_lower && (pySplit sentence).length > 3) with
  | none => none
  | some keyword =>
    match _generate_task_name sentence keyword with
    | none => none
    | some task_name =>
      if task_name.length < 100 then
        some { name := task_name
               description := pyTake sentence 200
               priority := _estimate_priority randPick sentence
               estimated_duration := _estimate_duration randDur sentence }
      else none

/-- The sentence loop of `_extract_tasks` (index `i` threads the random
oracles; the loop body uses at most one draw of each per sentence). -/
def scanTasks (rp : Nat → String) (rd : Nat → Nat) (i : Nat) : List String → List Task
  | [] => []
  | sentence :: rest =>
    match sentenceToTask (rp i) (rd i) sentence with
    | none => scanTasks rp rd (i + 1) rest
    | some t => t :: scanTasks rp rd (i + 1) rest

/-- Model of `DocumentAnalyzer._generate_default_tasks(text)` (the `text` argument
is unused by the source). -/
def _generate_default_tasks : List Task :=
  [{ name := "Project Planning", description := "Plan project scope and timeline",
     priority := "High", estimated_duration := 3 },
   { name := "Requirements Analysis", description := "Analyze project requirements",
     priority := "High", estimated_duration := 5 },
   { name := "System Design", description := "Design system architecture",
     priority := "Medium", estimated_duration := 7 },
   { name := "Development Phase 1", description := "Initial development phase",
     priority := "High", estimated_duration := 10 },
   { name := "Testing", description := "Test system functionality",
     priority := "High", estimated_duration := 5 },
   { name := "Deployment", description := "Deploy to production",
     priority := "Medium", estimated_duration := 2 }]

/-- Model of `DocumentAnalyzer._extract_tasks(text)`, over the sentence list
produced by the external `nltk.sent_tokenize`. -/
def _extract_tasks (rp : Nat → String) (rd : Nat → Nat) (sentences : List String) : List Task :=
  let tasks := scanTasks rp rd 0 sentences
  (if tasks.isEmpty then _generate_default_tasks else tasks).take 15

/-- A cell of a user-editable DataFrame column: `null` models `None`/`NaN`
(for which `isna` is true and `strptime` raises `TypeError`), `str` a
string value. -/
inductive Cell where
  | null
  | str (s : DateStr)
deriving DecidableEq, Repr

/-- A user-edited plan DataFrame as `validate_plan` sees it: its column
names, its row count, and the cells of each present column. -/
structure Frame where
  cols : List String
  nrows : Nat
  col : String → List Cell

/-- The distinct issue messages `validate_plan` can append:
`"Project plan is empty"`, `f"Missing columns: {missing_cols}"`,
`"Some tasks have empty names"`, `"Invalid date format detected"`. -/
inductive Issue where
  | emptyPlan
  | missingColumns (missing : List String)
  | emptyNames
  | invalidDate
deriving DecidableEq, Repr

/-- Model of `datetime.strptime(x, '%a %m/%d/%y')` on a raw cell: a `None`/`NaN`
cell raises `TypeError`, a malformed string raises `ValueError`. -/
def strptimeCell : Cell → Except PyError Int
  | .null => .error PyError.typeError
  | .str (.ofDay d) => .ok d
  | .str (.invalid _) => .error PyError.valueError

/-- Model of `df[col].apply(lambda x: datetime.strptime(x, '%a %m/%d/%y'))`:
stops at the first raising cell. -/
def applyStrptime : List Cell → Except PyError Unit
  | [] => .ok ()
  | c :: cs =>
    match strptimeCell c with
    | .error e => .error e
    | .ok _ => applyStrptime cs

/-- One iteration of the date-format loop: the column is only touched when
present (`if date_col in df.columns`). -/
def checkCol (df : Frame) (date_col : String) : Except PyError Unit :=
  if df.cols.contains date_col then applyStrptime (df.col date_col) else .ok ()

/-- The `try` body of the date-format check: `Start` then `Finish`. -/
def dateCheckRaw (df : Frame) : Except PyError Unit :=
  match checkCol df "Start" with
  | .error e => .error e
  | .ok _ => checkCol df "Finish"

/-- Model of `required_cols` of `validate_plan`. -/
def required_cols : List String := ["ID", "Name", "Duration", "Start", "Finish"]

/-- Model of `ProjectPlanner.validate_plan(df)`: the result is the issue list, or
the uncaught exception (`df['Name']` raises `KeyError` when that column is
absent; a `TypeError` from a `None` date cell is not caught by the
`except ValueError` clause). -/
def validate_plan (df : Frame) : Except PyError (List Issue) :=
  if df.nrows = 0 ∨ df.cols = [] then .ok [Issue.emptyPlan]
  else
    let missing_cols := required_cols.filter (fun c => !(df.cols.contains c))
    let issues := if missing_cols.isEmpty then [] else [Issue.missingColumns missing_cols]
    if !(df.cols.contains "Name") then .error (PyError.keyError "Name")
    else
      let issues := issues ++
        (if (df.col "Name").any (fun c => c == Cell.null) then [Issue.emptyNames] else [])
      match dateCheckRaw df with
      | .ok _ => .ok issues
      | .error PyError.valueError => .ok (issues ++ [Issue.invalidDate])
      | .error e => .error e

/-- The cursor advance of one task: `max(1, duration // 2)` days. -/
def maxGap (t : Task) : Int := ((max 1 (t.estimated_duration / 2) : Nat) : Int)

/-- The successive values of `current_date` over a task list. -/
def startSpine (cur : Int) : List Task → List Int
  | [] => []
  | t :: ts => cur :: startSpine (cur + maxGap t) ts

/-- The successive finish dates over a task list. -/
def finishSpine (cur : Int) : List Task → List Int
  | [] => []
  | t :: ts => (cur + (t.estimated_duration : Int)) :: finishSpine (cur + maxGap t) ts

theorem strptime_eq_some {d : DateStr} {x : Int} (h : strptime d = some x) :
    d = DateStr.ofDay x := by
  cases d with
  | ofDay y =>
    simp only [strptime, Option.some.injEq] at h
    rw [h]
  | invalid s => simp [strptime] at h

theorem planRowsAux_map_start (hashO : String → Nat) (allT : List Task) :
    ∀ (ts : List Task) (cur : Int) (i : Nat),
      (planRowsAux hashO allT ts cur i).map Row.start = (startSpine cur ts).map DateStr.ofDay
  | [], _, _ => rfl
  | t :: ts, cur, i => by
    simp only [planRowsAux, mkTaskRow, startSpine, strftime, maxGap, List.map_cons, planRowsAux_map_start hashO allT ts]

theorem planRowsAux_map_finish (hashO : String → Nat) (allT : List Task) :
    ∀ (ts : List Task) (cur : Int) (i : Nat),
      (planRowsAux hashO allT ts cur i).map Row.finish = (finishSpine cur ts).map DateStr.ofDay
  | [], _, _ => rfl
  | t :: ts, cur, i => by
    simp only [planRowsAux, mkTaskRow, finishSpine, strftime, maxGap, List.map_cons, planRowsAux_map_finish hashO allT ts]

theorem planRowsAux_map_duration (hashO : String → Nat) (allT : List Task) :
    ∀ (ts : List Task) (cur : Int) (i : Nat),
      (planRowsAux hashO allT ts cur i).map Row.duration = ts.map Task.estimated_duration
  | [], _, _ => rfl
  | t :: ts, cur, i => by
    simp only [planRowsAux, mkTaskRow, List.map_cons, planRowsAux_map_duration hashO allT ts]

theorem parseDates_map_ofDay : ∀ l : List Int, parseDates (l.map DateStr.ofDay) = .ok l
  | [] => rfl
  | x :: l => by
    simp only [List.map_cons, parseDates, strptime, parseDates_map_ofDay l, Except.map]

theorem foldl_min_le_init (a : Int) (l : List Int) : l.foldl min a ≤ a := by
  induction l generalizing a with
  | nil => simp
  | cons b t ih => exact le_trans (ih (min a b)) (min_le_left a b)

theorem foldl_min_le (a : Int) (l : List Int) : ∀ x ∈ a :: l, l.foldl min a ≤ x := by
  induction l generalizing a with
  | nil =>
    intro x hx
    rcases List.mem_cons.mp hx with rfl | h
    · simp
    · simp at h
  | cons b t ih =>
    intro x hx
    simp only [List.foldl_cons]
    rcases List.mem_cons.mp hx with rfl | h
    · exact le_trans (foldl_min_le_init (min x b) t) (min_le_left x b)
    · rcases List.mem_cons.mp h with rfl | h'
      · exact le_trans (foldl_min_le_init (min a x) t) (min_le_right a x)
      · exact ih (min a b) x (List.mem_cons_of_mem _ h')

theorem foldl_min_mem (a : Int) (l : List Int) : l.foldl min a ∈ a :: l := by
  induction l generalizing a with
  | nil => simp
  | cons b t ih =>
    simp only [List.foldl_cons]
    rcases List.mem_cons.mp (ih (min a b)) with h | h
    · rw [h]
      rcases le_total a b with hab | hab
      · rw [min_eq_left hab]; exact List.mem_cons_self _ _
      · rw [min_eq_right hab]; exact List.mem_cons_of_mem _ (List.mem_cons_self _ _)
    · exact List.mem_cons_of_mem _ (List.mem_cons_of_mem _ h)

theorem foldl_max_ge_init (a : Int) (l : List Int) : a ≤ l.foldl max a := by
  induction l generalizing a with
  | nil => simp
  | cons b t ih => exact le_trans (le_max_left a b) (ih (max a b))

theorem foldl_max_ge (a : Int) (l : List Int) : ∀ x ∈ a :: l, x ≤ l.foldl max a := by
  induction l generalizing a with
  | nil =>
    intro x hx
    rcases List.mem_cons.mp hx with rfl | h
    · simp
    · simp at h
  | cons b t ih =>
    intro x hx
    simp only [List.foldl_cons]
    rcases List.mem_cons.mp hx with rfl | h
    · exact le_trans (le_max_left x b) (foldl_max_ge_init (max x b) t)
    · rcases List.mem_cons.mp h with rfl | h'
      · exact le_trans (le_max_right a x) (foldl_max_ge_init (max a x) t)
      · exact ih (max a b) x (List.mem_cons_of_mem _ h')

theorem foldl_max_mem (a : Int) (l : List Int) : l.foldl max a ∈ a :: l := by
  induction l generalizing a with
  | nil => simp
  | cons b t ih =>
    simp only [List.foldl_cons]
    rcases List.mem_cons.mp (ih (max a b)) with h | h
    · rw [h]
      rcases le_total a b with hab | hab
      · rw [max_eq_right hab]; exact List.mem_cons_of_mem _ (List.mem_cons_self _ _)
      · rw [max_eq_left hab]; exact List.mem_cons_self _ _
    · exact List.mem_cons_of_mem _ (List.mem_cons_of_mem _ h)

theorem renumberFrom_map_start : ∀ (n : Nat) (l : List Row),
    (renumberFrom n l).map Row.start = l.map Row.start
  | _, [] => rfl
  | n, r :: rs => by simp [renumberFrom, renumberFrom_map_start (n + 1) rs]

theorem renumberFrom_map_finish : ∀ (n : Nat) (l : List Row),
    (renumberFrom n l).map Row.finish = l.map Row.finish
  | _, [] => rfl
  | n, r :: rs => by simp [renumberFrom, renumberFrom_map_finish (n + 1) rs]

theorem renumberFrom_map_duration : ∀ (n : Nat) (l : List Row),
    (renumberFrom n l).map Row.duration = l.map Row.duration
  | _, [] => rfl
  | n, r :: rs => by simp [renumberFrom, renumberFrom_map_duration (n + 1) rs]

theorem renumberFrom_cons (n : Nat) (r : Row) (l : List Row) :
    renumberFrom n (r :: l) = { r with id := n } :: renumberFrom (n + 1) l := rfl

theorem mem_renumberFrom : ∀ {r' : Row} {n : Nat} {l : List Row}, r' ∈ renumberFrom n l →
    ∃ r ∈ l, r'.start = r.start ∧ r'.finish = r.finish ∧ r'.duration = r.duration := by
  intro r' n l
  induction l generalizing n with
  | nil => intro h; simp [renumberFrom] at h
  | cons r rs ih =>
    intro h
    rcases List.mem_cons.mp h with h | h
    · exact ⟨r, List.mem_cons_self _ _, by simp [h]⟩
    · obtain ⟨r0, hr0, hfields⟩ := ih h
      exact ⟨r0, List.mem_cons_of_mem _ hr0, hfields⟩

theorem strptime_ofDay (x : Int) : strptime (DateStr.ofDay x) = some x := rfl

theorem planRowsAux_cons (hashO : String → Nat) (allT : List Task) (t : Task) (ts : List Task)
    (cur : Int) (i : Nat) :
    planRowsAux hashO allT (t :: ts) cur i =
      mkTaskRow hashO allT t cur i :: planRowsAux hashO allT ts (cur + maxGap t) (i + 1) := rfl

/-- The summary row that `_create_summary_row` produces for the rows
generated from a non-empty task list starting at `cur`. -/
def mkSummary (project_name : String) (cur : Int) (tasks : List Task) : Row :=
  { id := 0
    name := project_name
    active := "Yes"
    taskMode := "Auto Scheduled"
    duration := (tasks.map Task.estimated_duration).sum
    start := strftime (listMin (startSpine cur tasks))
    finish := strftime (listMax (finishSpine cur tasks))
    predecessors := ""
    outlineLevel := 0
    notes := "This roadmap is intended to guide the project execution." }

theorem create_summary_of_planRows (hashO : String → Nat) (allT : List Task)
    (project_name : String) (t : Task) (ts : List Task) (cur : Int) (i : Nat) :
    _create_summary_row project_name (planRowsAux hashO allT (t :: ts) cur i) =
      .ok (some (mkSummary project_name cur (t :: ts))) := by
  have hs := planRowsAux_map_start hashO allT (t :: ts) cur i
  have hf := planRowsAux_map_finish hashO allT (t :: ts) cur i
  have hd := planRowsAux_map_duration hashO allT (t :: ts) cur i
  rw [planRowsAux_cons] at hs hf hd ⊢
  simp only [_create_summary_row, hs, hf, hd, parseDates_map_ofDay, mkSummary]

theorem planRowsAux_row_dates (hashO : String → Nat) (allT : List Task) :
    ∀ (ts : List Task) (cur : Int) (i : Nat), ∀ r ∈ planRowsAux hashO allT ts cur i,
      ∃ s, r.start = DateStr.ofDay s ∧ r.finish = DateStr.ofDay (s + (r.duration : Int))
  | [], _, _ => by intro r hr; simp [planRowsAux] at hr
  | t :: ts, cur, i => by
    intro r hr
    rw [planRowsAux_cons] at hr
    rcases List.mem_cons.mp hr with rfl | hr
    · exact ⟨cur, rfl, rfl⟩
    · exact planRowsAux_row_dates hashO allT ts _ _ r hr

/-- Adjacent generated rows: the next start is exactly `max(1, duration // 2)`
days after the previous one, in particular strictly later. -/
def consecutiveStart (a b : Row) : Prop :=
  ∃ sa sb, strptime a.start = some sa ∧ strptime b.start = some sb ∧
    sb = sa + ((max 1 (a.duration / 2) : Nat) : Int) ∧ sa < sb

theorem maxGap_pos (t : Task) : 1 ≤ maxGap t := by
  have h := Nat.le_max_left 1 (t.estimated_duration / 2)
  simp only [maxGap]
  omega

theorem planRowsAux_chain (hashO : String → Nat) (allT : List Task) :
    ∀ (ts : List Task) (cur : Int) (i : Nat),
      List.Chain' consecutiveStart (planRowsAux hashO allT ts cur i)
  | [], _, _ => List.chain'_nil
  | [t], cur, i => by simp [planRowsAux_cons, planRowsAux]
  | t :: t' :: ts, cur, i => by
    have ih := planRowsAux_chain hashO allT (t' :: ts) (cur + maxGap t) (i + 1)
    rw [planRowsAux_cons] at ih ⊢
    rw [planRowsAux_cons]
    rw [List.chain'_cons]
    refine ⟨⟨cur, cur + maxGap t, rfl, rfl, rfl, ?_⟩, ?_⟩
    · have := maxGap_pos t
      omega
    · exact ih

theorem chain'_renumberFrom : ∀ (n : Nat) (l : List Row),
    List.Chain' consecutiveStart l → List.Chain' consecutiveStart (renumberFrom n l)
  | _, [], _ => List.chain'_nil
  | n, [r], _ => by simp [renumberFrom]
  | n, r1 :: r2 :: rs, h => by
    rw [List.chain'_cons] at h
    have ih := chain'_renumberFrom (n + 1) (r2 :: rs) h.2
    simp only [renumberFrom] at ih ⊢
    rw [List.chain'_cons]
    exact ⟨h.1, ih⟩

theorem generate_eq_cons (hashO : String → Nat) (dflt : Int) (project_name : String)
    (t : Task) (ts : List Task) :
    generate_project_plan hashO dflt ⟨project_name, t :: ts⟩ =
      renumberFrom 1 (mkSummary project_name dflt (t :: ts) ::
        planRowsAux hashO (t :: ts) (t :: ts) dflt 0) := by
  simp only [generate_project_plan, create_summary_of_planRows]

theorem generate_nil (hashO : String → Nat) (dflt : Int) (project_name : String) :
    generate_project_plan hashO dflt ⟨project_name, []⟩ = [] := rfl

theorem rowParses_start {r : Row} (h : rowParses r = true) : ∃ s, strptime r.start = some s := by
  simp only [rowParses, Bool.and_eq_true, Option.isSome_iff_exists] at h
  exact h.1

theorem rowParses_finish {r : Row} (h : rowParses r = true) : ∃ f, strptime r.finish = some f := by
  simp only [rowParses, Bool.and_eq_true, Option.isSome_iff_exists] at h
  exact h.2

theorem shiftD_zero : ∀ d : DateStr, shiftD 0 d = d
  | .ofDay x => by simp [shiftD]
  | .invalid s => rfl

theorem shiftRowBy_zero (r : Row) : shiftRowBy 0 r = r := by
  cases r
  simp [shiftRowBy, shiftD_zero]

theorem rowParses_shiftRowBy (diff : Int) (r : Row) :
    rowParses (shiftRowBy diff r) = rowParses r := by
  cases hs : r.start <;> cases hf : r.finish <;>
    simp [rowParses, shiftRowBy, shiftD, hs, hf, strptime]

theorem updateLoop_parses_cons (diff : Int) (r : Row) (rs : List Row)
    (h : rowParses r = true) :
    updateLoop diff (r :: rs) = shiftRowBy diff r :: updateLoop diff rs := by
  obtain ⟨s, hs⟩ := rowParses_start h
  obtain ⟨f, hf⟩ := rowParses_finish h
  have hs' := strptime_eq_some hs
  have hf' := strptime_eq_some hf
  simp only [updateLoop, hs, hf, shiftRowTo, shiftRowBy, hs', hf', shiftD, strftime, strptime_ofDay]

theorem updateLoop_all_parses (diff : Int) :
    ∀ (l : List Row), (∀ r ∈ l, rowParses r = true) →
      updateLoop diff l = l.map (shiftRowBy diff)
  | [], _ => rfl
  | r :: rs, h => by
    rw [updateLoop_parses_cons diff r rs (h r (List.mem_cons_self _ _)),
        updateLoop_all_parses diff rs (fun x hx => h x (List.mem_cons_of_mem _ hx)),
        List.map_cons]

theorem updateLoop_append (diff : Int) :
    ∀ (pre xs : List Row), (∀ r ∈ pre, rowParses r = true) →
      updateLoop diff (pre ++ xs) = pre.map (shiftRowBy diff) ++ updateLoop diff xs
  | [], _, _ => rfl
  | r :: pre, xs, h => by
    rw [List.cons_append, updateLoop_parses_cons diff r _ (h r (List.mem_cons_self _ _)),
        updateLoop_append diff pre xs (fun x hx => h x (List.mem_cons_of_mem _ hx)),
        List.map_cons, List.cons_append]

theorem updateLoop_stops (diff : Int) (bad : Row) (rest : List Row)
    (h : rowParses bad = false) :
    updateLoop diff (bad :: rest) = bad :: rest := by
  rcases hs : strptime bad.start with _ | s
  · simp [updateLoop, hs]
  · rcases hf : strptime bad.finish with _ | f
    · simp [updateLoop, hs, hf]
    · exfalso
      simp [rowParses, hs, hf] at h

theorem strptime_shiftRowBy_start (diff : Int) (r : Row) :
    strptime (shiftRowBy diff r).start = (strptime r.start).map (fun x => x + diff) := by
  cases hs : r.start <;> simp [shiftRowBy, shiftD, hs, strptime]

theorem strptime_shiftRowBy_finish (diff : Int) (r : Row) :
    strptime (shiftRowBy diff r).finish = (strptime r.finish).map (fun x => x + diff) := by
  cases hf : r.finish <;> simp [shiftRowBy, shiftD, hf, strptime]

theorem update_all_parses (new_start_date : Int) (r0 : Row) (rest : List Row)
    (h : ∀ r ∈ r0 :: rest, rowParses r = true) {s0 : Int}
    (hs0 : strptime r0.start = some s0) :
    update_plan_dates (r0 :: rest) new_start_date =
      (r0 :: rest).map (shiftRowBy (new_start_date - s0)) := by
  simp only [update_plan_dates, hs0]
  exact updateLoop_all_parses _ _ h

/-- C3 (as stated, refuted below for plans with an unparseable later row);
sample rows used by the counterexamples and witnesses. -/
def cRow0 : Row :=
  { id := 1, name := "A", active := "Yes", taskMode := "Auto Scheduled", duration := 5,
    start := DateStr.ofDay 0, finish := DateStr.ofDay 5, predecessors := "",
    outlineLevel := 1, notes := "" }

/-- A row whose `Start` cell does not parse. -/
def cRowBad : Row := { cRow0 with id := 2, name := "B", start := DateStr.invalid "oops" }

/-- A fully parseable row placed after the bad one. -/
def cRow2 : Row := { cRow0 with id := 3, name := "C", start := DateStr.ofDay 6, finish := DateStr.ofDay 11 }

/-- C3 counterexample: in the plan `[cRow0, cRowBad, cRow2]` the first
row's `Start` parses (day 0), yet `update_plan_dates` to day 10 does not
shift every row by the offset 10: the rows after the unparseable one keep
their original dates (`cRow2` stays at day 6 instead of day 16), so the
claim as stated is false. -/
theorem C3_counterexample :
    strptime cRow0.start = some 0 ∧
      (update_plan_dates [cRow0, cRowBad, cRow2] 10).map (fun r => strptime r.start) ≠
        [cRow0, cRowBad, cRow2].map (fun r => (strptime r.start).map (fun x => x + (10 - 0))) := by
  decide

/-- C3 (amended): for every plan table all of whose rows' `Start` and
`Finish` parse under the fixed date format, `update_plan_dates` shifts
every row's start and finish uniformly by the day-offset between the new
start date and the first row's start; applying it twice with the same
target date equals applying it once; and each row's duration (finish
minus start) is preserved exactly. -/
theorem C3_amended_uniform_shift_idempotent (new_start_date : Int) (plan : List Row)
    (h : ∀ r ∈ plan, rowParses r = true) :
    (∀ r0 rest, plan = r0 :: rest → ∃ s0, strptime r0.start = some s0 ∧
      update_plan_dates plan new_start_date = plan.map (shiftRowBy (new_start_date - s0))) ∧
    update_plan_dates (update_plan_dates plan new_start_date) new_start_date =
      update_plan_dates plan new_start_date ∧
    List.Forall₂ (fun orig res => ∀ s f, strptime orig.start = some s →
        strptime orig.finish = some f → ∃ s2 f2, strptime res.start = some s2 ∧
          strptime res.finish = some f2 ∧ f2 - s2 = f - s)
      plan (update_plan_dates plan new_start_date) := by
  cases plan with
  | nil =>
    refine ⟨fun r0 rest heq => by simp at heq, rfl, ?_⟩
    simp [update_plan_dates]
  | cons r0 rest =>
    obtain ⟨s0, hs0⟩ := rowParses_start (h r0 (List.mem_cons_self _ _))
    have main := update_all_parses new_start_date r0 rest h hs0
    have hparse2 : ∀ r ∈ (r0 :: rest).map (shiftRowBy (new_start_date - s0)),
        rowParses r = true := by
      intro r hr
      obtain ⟨r', hr', rfl⟩ := List.mem_map.mp hr
      rw [rowParses_shiftRowBy]
      exact h r' hr'
    refine ⟨?_, ?_, ?_⟩
    · intro r0' rest' heq
      obtain ⟨rfl, rfl⟩ : r0' = r0 ∧ rest' = rest := by
        constructor <;> injection heq <;> simp [*]
      exact ⟨s0, hs0, main⟩
    · rw [main]
      have hhead : strptime (shiftRowBy (new_start_date - s0) r0).start =
          some new_start_date := by
        rw [strptime_shiftRowBy_start, hs0]
        simp
      rw [List.map_cons]
      show update_plan_dates
          (shiftRowBy (new_start_date - s0) r0 :: rest.map (shiftRowBy (new_start_date - s0)))
          new_start_date = _
      rw [update_all_parses new_start_date _ _ (by rw [← List.map_cons]; exact hparse2) hhead]
      have hz : new_start_date - new_start_date = 0 := by ring
      rw [hz, ← List.map_cons]
      have : ∀ l : List Row, l.map (shiftRowBy 0) = l := by
        intro l
        have : shiftRowBy 0 = id := funext shiftRowBy_zero
        rw [this, List.map_id]
      exact this _
    · rw [main, List.forall₂_map_right_iff]
      rw [List.forall₂_same]
      intro r hr s f hs hf
      refine ⟨s + (new_start_date - s0), f + (new_start_date - s0), ?_, ?_, by ring⟩
      · rw [strptime_shiftRowBy_start, hs]; rfl
      · rw [strptime_shiftRowBy_finish, hf]; rfl

/-- C3 witness: the amended theorem applied to the concrete two-row plan
`[cRow0, cRow2]` shifted to day 10, with the all-rows-parse hypothesis
discharged by evaluation. -/
theorem C3_witness :
    (∀ r ∈ [cRow0, cRow2], rowParses r = true) ∧
      ((∀ r0 rest, ([cRow0, cRow2] : List Row) = r0 :: rest → ∃ s0,
          strptime r0.start = some s0 ∧
          update_plan_dates [cRow0, cRow2] 10 =
            [cRow0, cRow2].map (shiftRowBy (10 - s0))) ∧
        update_plan_dates (update_plan_dates [cRow0, cRow2] 10) 10 =
          update_plan_dates [cRow0, cRow2] 10 ∧
        List.Forall₂ (fun orig res => ∀ s f, strptime orig.start = some s →
            strptime orig.finish = some f → ∃ s2 f2, strptime res.start = some s2 ∧
              strptime res.finish = some f2 ∧ f2 - s2 = f - s)
          [cRow0, cRow2] (update_plan_dates [cRow0, cRow2] 10)) :=
  ⟨by decide, C3_amended_uniform_shift_idempotent 10 [cRow0, cRow2] (by decide)⟩

/-- C4 counterexample: the two-row plan `[cRow0, cRowBad]` contains a row
whose `Start` does not parse, yet `update_plan_dates` to day 10 does not
return it unmodified: the first row is shifted before the failure is hit,
so the claim as stated is false. -/
theorem C4_counterexample :
    update_plan_dates [cRow0, cRowBad] 10 ≠ [cRow0, cRowBad] := by
  decide

/-- C4 (amended): `update_plan_dates` stops at the first row whose `Start`
or `Finish` fails to parse: the rows before it are shifted uniformly by
some fixed offset while the failing row and every row after it keep their
original cells; in particular, when the very first row fails, the plan is
returned unmodified. -/
theorem C4_amended_prefix_shift (new_start_date : Int) (pre : List Row) (bad : Row)
    (rest : List Row) (hpre : ∀ r ∈ pre, rowParses r = true)
    (hbad : rowParses bad = false) :
    ∃ diff, update_plan_dates (pre ++ bad :: rest) new_start_date =
      pre.map (shiftRowBy diff) ++ (bad :: rest) := by
  cases pre with
  | nil =>
    rcases hs : strptime bad.start with _ | s
    · exact ⟨0, by simp [update_plan_dates, hs]⟩
    · refine ⟨new_start_date - s, ?_⟩
      simp only [List.nil_append, update_plan_dates, hs, List.map_nil]
      exact updateLoop_stops _ bad rest hbad
  | cons p pre' =>
    obtain ⟨s, hs⟩ := rowParses_start (hpre p (List.mem_cons_self _ _))
    refine ⟨new_start_date - s, ?_⟩
    simp only [List.cons_append, update_plan_dates, hs]
    rw [← List.cons_append,
        updateLoop_append _ (p :: pre') (bad :: rest) hpre,
        updateLoop_stops _ bad rest hbad]

/-- C4 witness: the amended theorem applied to the concrete plan
`[cRow0] ++ cRowBad :: [cRow2]` shifted to day 10, both hypotheses
discharged by evaluation. -/
theorem C4_witness :
    (∀ r ∈ [cRow0], rowParses r = true) ∧ rowParses cRowBad = false ∧
      ∃ diff, update_plan_dates ([cRow0] ++ cRowBad :: [cRow2]) 10 =
        [cRow0].map (shiftRowBy diff) ++ (cRowBad :: [cRow2]) :=
  ⟨by decide, by decide, C4_amended_prefix_shift 10 [cRow0] cRowBad [cRow2] (by decide) (by decide)⟩

theorem listMin_le : ∀ (l : List Int), ∀ x ∈ l, listMin l ≤ x
  | [], x, hx => by simp at hx
  | a :: as, x, hx => foldl_min_le a as x hx

theorem listMin_mem : ∀ {l : List Int}, l ≠ [] → listMin l ∈ l
  | [], h => absurd rfl h
  | a :: as, _ => foldl_min_mem a as

theorem listMax_ge : ∀ (l : List Int), ∀ x ∈ l, x ≤ listMax l
  | [], x, hx => by simp at hx
  | a :: as, x, hx => foldl_max_ge a as x hx

theorem listMax_mem : ∀ {l : List Int}, l ≠ [] → listMax l ∈ l
  | [], h => absurd rfl h
  | a :: as, _ => foldl_max_mem a as

/-- C1: for every plan table returned by `generate_project_plan`, every
non-summary row (everything after the leading summary row) satisfies
finish = start + duration_days exactly, both dates parsing under the
fixed date format. -/
theorem C1_nonsummary_finish_eq_start_plus_duration (hashO : String → Nat) (dflt : Int)
    (info : ProjectInfo) :
    ∀ r ∈ (generate_project_plan hashO dflt info).drop 1,
      ∃ s, strptime r.start = some s ∧
        strptime r.finish = some (s + (r.duration : Int)) := by
  cases info with
  | mk project_name tasks =>
    cases tasks with
    | nil => intro r hr; simp [generate_nil] at hr
    | cons t ts =>
      intro r hr
      rw [generate_eq_cons, renumberFrom_cons] at hr
      have hr' : r ∈ renumberFrom (1 + 1) (planRowsAux hashO (t :: ts) (t :: ts) dflt 0) := hr
      obtain ⟨r0, hr0, hstart, hfinish, hdur⟩ := mem_renumberFrom hr' 
      obtain ⟨s, h1, h2⟩ := planRowsAux_row_dates hashO (t :: ts) (t :: ts) dflt 0 r0 hr0
      refine ⟨s, ?_, ?_⟩
      · rw [hstart, h1]; rfl
      · rw [hfinish, h2, hdur]; rfl

/-- Concrete hash oracle for the generator witnesses. -/
def wHash : String → Nat := fun _ => 0

/-- Concrete analyzer-style task for the generator witnesses. -/
def wTask : Task :=
  { name := "Design the system", description := "d", priority := "High", estimated_duration := 4 }

/-- Concrete project info for the generator witnesses. -/
def wInfo : ProjectInfo := { name := "P", tasks := [wTask] }

/-- The single non-summary row of the concrete one-task plan. -/
def wRow : Row :=
  { id := 2, name := "Design the system", active := "Yes", taskMode := "Auto Scheduled",
    duration := 4, start := DateStr.ofDay 0, finish := DateStr.ofDay 4, predecessors := "",
    outlineLevel := 1, notes := "Priority: High. d" }

/-- C1 witness: the theorem applied to the single non-summary row of the
concrete one-task plan. -/
theorem C1_witness :
    wRow ∈ (generate_project_plan wHash 0 wInfo).drop 1 ∧
      ∃ s, strptime wRow.start = some s ∧
        strptime wRow.finish = some (s + (wRow.duration : Int)) := by
  have hmem : wRow ∈ (generate_project_plan wHash 0 wInfo).drop 1 := by
    rw [show (generate_project_plan wHash 0 wInfo).drop 1 = [wRow] by decide]
    exact List.mem_cons_self _ _
  exact ⟨hmem, C1_nonsummary_finish_eq_start_plus_duration wHash 0 wInfo wRow hmem⟩

/-- C2: the summary row of a plan generated from a non-empty task list has
duration equal to the sum of all other rows' durations, start equal to the
minimum of all other rows' starts and finish equal to the maximum of all
other rows' finishes. -/
theorem C2_summary_aggregates (hashO : String → Nat) (dflt : Int) (info : ProjectInfo)
    (h : info.tasks ≠ []) :
    ∃ s rest, generate_project_plan hashO dflt info = s :: rest ∧
      s.duration = (rest.map Row.duration).sum ∧
      (∃ m, strptime s.start = some m ∧ (∃ r ∈ rest, strptime r.start = some m) ∧
        ∀ r ∈ rest, ∀ x, strptime r.start = some x → m ≤ x) ∧
      (∃ M, strptime s.finish = some M ∧ (∃ r ∈ rest, strptime r.finish = some M) ∧
        ∀ r ∈ rest, ∀ x, strptime r.finish = some x → x ≤ M) := by
  cases info with
  | mk project_name tasks =>
    cases tasks with
    | nil => exact absurd rfl h
    | cons t ts =>
      rw [generate_eq_cons, renumberFrom_cons, show (1 : Nat) + 1 = 2 from rfl]
      have hmapS : (renumberFrom 2 (planRowsAux hashO (t :: ts) (t :: ts) dflt 0)).map Row.start =
          (startSpine dflt (t :: ts)).map DateStr.ofDay := by
        rw [renumberFrom_map_start, planRowsAux_map_start]
      have hmapF : (renumberFrom 2 (planRowsAux hashO (t :: ts) (t :: ts) dflt 0)).map Row.finish =
          (finishSpine dflt (t :: ts)).map DateStr.ofDay := by
        rw [renumberFrom_map_finish, planRowsAux_map_finish]
      have hmapD : (renumberFrom 2 (planRowsAux hashO (t :: ts) (t :: ts) dflt 0)).map Row.duration =
          (t :: ts).map Task.estimated_duration := by
        rw [renumberFrom_map_duration, planRowsAux_map_duration]
      have hspineS : startSpine dflt (t :: ts) ≠ [] := by simp [startSpine]
      have hspineF : finishSpine dflt (t :: ts) ≠ [] := by simp [finishSpine]
      refine ⟨_, _, rfl, ?_, ?_, ?_⟩
      · show (mkSummary project_name dflt (t :: ts)).duration = _
        rw [hmapD]
        rfl
      · refine ⟨listMin (startSpine dflt (t :: ts)), rfl, ?_, ?_⟩
        · have hm : DateStr.ofDay (listMin (startSpine dflt (t :: ts))) ∈
              (renumberFrom 2 (planRowsAux hashO (t :: ts) (t :: ts) dflt 0)).map Row.start := by
            rw [hmapS]
            exact List.mem_map_of_mem _ (listMin_mem hspineS)
          obtain ⟨r, hr, hre⟩ := List.mem_map.mp hm
          exact ⟨r, hr, by rw [hre]; rfl⟩
        · intro r hr x hx
          have : r.start ∈ (startSpine dflt (t :: ts)).map DateStr.ofDay := by
            rw [← hmapS]
            exact List.mem_map_of_mem _ hr
          obtain ⟨y, hy, hye⟩ := List.mem_map.mp this
          rw [← hye] at hx
          simp only [strptime, Option.some.injEq] at hx
          subst hx
          exact listMin_le _ y hy
      · refine ⟨listMax (finishSpine dflt (t :: ts)), rfl, ?_, ?_⟩
        · have hm : DateStr.ofDay (listMax (finishSpine dflt (t :: ts))) ∈
              (renumberFrom 2 (planRowsAux hashO (t :: ts) (t :: ts) dflt 0)).map Row.finish := by
            rw [hmapF]
            exact List.mem_map_of_mem _ (listMax_mem hspineF)
          obtain ⟨r, hr, hre⟩ := List.mem_map.mp hm
          exact ⟨r, hr, by rw [hre]; rfl⟩
        · intro r hr x hx
          have : r.finish ∈ (finishSpine dflt (t :: ts)).map DateStr.ofDay := by
            rw [← hmapF]
            exact List.mem_map_of_mem _ hr
          obtain ⟨y, hy, hye⟩ := List.mem_map.mp this
          rw [← hye] at hx
          simp only [strptime, Option.some.injEq] at hx
          subst hx
          exact listMax_ge _ y hy

/-- C2 witness: the theorem applied to the concrete one-task project, with
the non-empty-tasks hypothesis discharged by evaluation. -/
theorem C2_witness :
    wInfo.tasks ≠ [] ∧
      ∃ s rest, generate_project_plan wHash 0 wInfo = s :: rest ∧
        s.duration = (rest.map Row.duration).sum ∧
        (∃ m, strptime s.start = some m ∧ (∃ r ∈ rest, strptime r.start = some m) ∧
          ∀ r ∈ rest, ∀ x, strptime r.start = some x → m ≤ x) ∧
        (∃ M, strptime s.finish = some M ∧ (∃ r ∈ rest, strptime r.finish = some M) ∧
          ∀ r ∈ rest, ∀ x, strptime r.finish = some x → x ≤ M) :=
  ⟨by decide, C2_summary_aggregates wHash 0 wInfo (by decide)⟩

/-- C6 counterexample: for the concrete one-task project the first row of
the returned table has id 1 (the final `df['ID'] = range(1, len(df)+1)`
renumbering overwrites the summary's id 0), so no returned row has id 0
and the claim as stated is false. -/
theorem C6_counterexample :
    (generate_project_plan wHash 0 wInfo).head?.map Row.id ≠ some 0 := by
  decide

/-- C6 (amended): in every plan table generated from a non-empty task
list, the synthesized project-summary aggregate row occupies the first
position; it is created with id 0, but after the final contiguous
renumbering it carries id 1 in the returned table. -/
theorem C6_amended_summary_first_position (hashO : String → Nat) (dflt : Int)
    (info : ProjectInfo) (h : info.tasks ≠ []) :
    ∃ s rest, generate_project_plan hashO dflt info = s :: rest ∧
      s.id = 1 ∧ s.name = info.name ∧ s.outlineLevel = 0 ∧
      s.notes = "This roadmap is intended to guide the project execution." := by
  cases info with
  | mk project_name tasks =>
    cases tasks with
    | nil => exact absurd rfl h
    | cons t ts =>
      rw [generate_eq_cons, renumberFrom_cons]
      exact ⟨_, _, rfl, rfl, rfl, rfl, rfl⟩

/-- C6 witness: the amended theorem applied to the concrete one-task
project. -/
theorem C6_witness :
    wInfo.tasks ≠ [] ∧
      ∃ s rest, generate_project_plan wHash 0 wInfo = s :: rest ∧
        s.id = 1 ∧ s.name = wInfo.name ∧ s.outlineLevel = 0 ∧
        s.notes = "This roadmap is intended to guide the project execution." :=
  ⟨by decide, C6_amended_summary_first_position wHash 0 wInfo (by decide)⟩

/-- C9: in every generated plan table the starts of the non-summary rows
(everything after the leading summary row) are strictly increasing in row
order, each row starting exactly `max(1, previous duration // 2)` days
after the previous row. -/
theorem C9_starts_strictly_increasing (hashO : String → Nat) (dflt : Int)
    (info : ProjectInfo) :
    List.Chain' consecutiveStart ((generate_project_plan hashO dflt info).drop 1) := by
  cases info with
  | mk project_name tasks =>
    cases tasks with
    | nil => simp [generate_nil]
    | cons t ts =>
      rw [generate_eq_cons, renumberFrom_cons]
      show List.Chain' consecutiveStart
        (renumberFrom (1 + 1) (planRowsAux hashO (t :: ts) (t :: ts) dflt 0))
      exact chain'_renumberFrom (1 + 1) _ (planRowsAux_chain hashO (t :: ts) (t :: ts) dflt 0)

/-- C10: for a project info whose task list is empty,
`generate_project_plan` returns an empty table: `_create_summary_row`
synthesizes no summary row for the empty frame, and the 2-row default
plan is not substituted (no exception occurs). -/
theorem C10_empty_tasks_empty_plan (hashO : String → Nat) (dflt : Int)
    (project_name : String) :
    generate_project_plan hashO dflt ⟨project_name, []⟩ = [] ∧
      _create_summary_row project_name (planRowsAux hashO [] [] dflt 0) = .ok none ∧
      generate_project_plan hashO dflt ⟨project_name, []⟩ ≠ _create_default_plan dflt := by
  refine ⟨rfl, rfl, ?_⟩
  rw [generate_nil]
  simp [_create_default_plan]

/-- C5: for every sentence list on which the sentence-keyword task scan
yields zero matches, the analyzer's task list is exactly the fixed 6-item
default task list, with its fixed priorities and durations, in order. -/
theorem C5_default_tasks_on_no_match (rp : Nat → String) (rd : Nat → Nat)
    (sentences : List String)
    (h : ∀ s ∈ sentences, ∀ p d, sentenceToTask p d s = none) :
    _extract_tasks rp rd sentences =
      [{ name := "Project Planning", description := "Plan project scope and timeline",
         priority := "High", estimated_duration := 3 },
       { name := "Requirements Analysis", description := "Analyze project requirements",
         priority := "High", estimated_duration := 5 },
       { name := "System Design", description := "Design system architecture",
         priority := "Medium", estimated_duration := 7 },
       { name := "Development Phase 1", description := "Initial development phase",
         priority := "High", estimated_duration := 10 },
       { name := "Testing", description := "Test system functionality",
         priority := "High", estimated_duration := 5 },
       { name := "Deployment", description := "Deploy to production",
         priority := "Medium", estimated_duration := 2 }] := by
  have hscan : ∀ (l : List String), (∀ s ∈ l, ∀ p d, sentenceToTask p d s = none) →
      ∀ i, scanTasks rp rd i l = [] := by
    intro l
    induction l with
    | nil => intro _ _; rfl
    | cons s rest ih =>
      intro hl i
      have hs := hl s (List.mem_cons_self _ _) (rp i) (rd i)
      simp only [scanTasks, hs]
      exact ih (fun x hx p d => hl x (List.mem_cons_of_mem _ hx) p d) (i + 1)
  simp only [_extract_tasks, hscan sentences h 0]
  rfl

/-- C5 witness: the theorem applied to a single keyword-free sentence. -/
theorem C5_witness :
    (∀ s ∈ ["the cat sat here"], ∀ p d, sentenceToTask p d s = none) ∧
      _extract_tasks (fun _ => "Medium") (fun _ => 1) ["the cat sat here"] =
        [{ name := "Project Planning", description := "Plan project scope and timeline",
           priority := "High", estimated_duration := 3 },
         { name := "Requirements Analysis", description := "Analyze project requirements",
           priority := "High", estimated_duration := 5 },
         { name := "System Design", description := "Design system architecture",
           priority := "Medium", estimated_duration := 7 },
         { name := "Development Phase 1", description := "Initial development phase",
           priority := "High", estimated_duration := 10 },
         { name := "Testing", description := "Test system functionality",
           priority := "High", estimated_duration := 5 },
         { name := "Deployment", description := "Deploy to production",
           priority := "Medium", estimated_duration := 2 }] := by
  have h : ∀ s ∈ ["the cat sat here"], ∀ p d, sentenceToTask p d s = none := by
    intro s hs p d
    have he : s = "the cat sat here" := by simpa using hs
    subst he
    rfl
  exact ⟨h, C5_default_tasks_on_no_match _ _ _ h⟩

/-- First sentence of the Auth scenario (as tokenized by the external
sentence splitter from the scenario text). -/
def authSentence1 : String := "We will implement the login module in 5 days."

/-- Second sentence of the Auth scenario. -/
def authSentence2 : String := "Then we will test the module for 2 days."

/-- Concrete random-priority oracle for the scenario. -/
def wPick : Nat → String := fun _ => "Medium"

/-- Concrete random-duration oracle for the scenario (never consulted:
both sentences carry explicit day counts). -/
def wDur : Nat → Nat := fun _ => 1

/-- C7 counterexample: on the Auth scenario sentences no extracted task
name contains "Implement Login Module" and none contains "Test Module"
(the actual names are "Will Implement The Login Module" and
"Will Test The Module For", which contain the keyword-adjacent article
"The"), so the claim as stated is false. -/
theorem C7_counterexample :
    ((_extract_tasks wPick wDur [authSentence1, authSentence2]).all
        (fun t => !(substrOf "Implement Login Module" t.name))) = true ∧
      ((_extract_tasks wPick wDur [authSentence1, authSentence2]).all
        (fun t => !(substrOf "Test Module" t.name))) = true := by
  decide

/-- C7 (amended): for the Auth scenario text the analyzer's task list is
exactly a task named "Will Implement The Login Module" (containing
"Implement The Login Module") with duration 5, followed by a task named
"Will Test The Module For" (containing "Test The Module") with duration 2,
for any draw of the random priority/duration oracles. -/
theorem C7_amended_scenario_names_durations (rp : Nat → String) (rd : Nat → Nat) :
    _extract_tasks rp rd [authSentence1, authSentence2] =
      [{ name := "Will Implement The Login Module", description := authSentence1,
         priority := rp 0, estimated_duration := 5 },
       { name := "Will Test The Module For", description := authSentence2,
         priority := rp 1, estimated_duration := 2 }] ∧
      substrOf "Implement The Login Module" "Will Implement The Login Module" = true ∧
      substrOf "Test The Module" "Will Test The Module For" = true := by
  refine ⟨?_, by decide, by decide⟩
  rfl

/-- The concrete validation frame missing its `Name` column. -/
def fNoName : Frame :=
  { cols := ["ID", "Duration", "Start", "Finish"]
    nrows := 1
    col := fun c =>
      if c = "Start" then [Cell.str (DateStr.ofDay 0)]
      else if c = "Finish" then [Cell.str (DateStr.ofDay 1)]
      else [Cell.str (DateStr.invalid "x")] }

/-- C8 counterexample: on a non-empty frame without a `Name` column,
`validate_plan` raises `KeyError` at `df['Name'].isna()` instead of
returning an issue list, so the claim as stated is false. -/
theorem C8_counterexample :
    validate_plan fNoName = .error (PyError.keyError "Name") := rfl

theorem applyStrptime_no_null : ∀ (cells : List Cell), (∀ c ∈ cells, c ≠ Cell.null) →
    applyStrptime cells = .ok () ∨ applyStrptime cells = .error PyError.valueError
  | [], _ => Or.inl rfl
  | c :: cs, h => by
    cases c with
    | null => exact absurd rfl (h _ (List.mem_cons_self _ _))
    | str d =>
      cases d with
      | ofDay x =>
        simp only [applyStrptime, strptimeCell]
        exact applyStrptime_no_null cs (fun x hx => h x (List.mem_cons_of_mem _ hx))
      | invalid s => exact Or.inr rfl

theorem dateCheckRaw_no_null (df : Frame)
    (hs : ∀ c ∈ df.col "Start", c ≠ Cell.null)
    (hf : ∀ c ∈ df.col "Finish", c ≠ Cell.null) :
    dateCheckRaw df = .ok () ∨ dateCheckRaw df = .error PyError.valueError := by
  have hcs : checkCol df "Start" = .ok () ∨ checkCol df "Start" = .error PyError.valueError := by
    unfold checkCol
    split
    · exact applyStrptime_no_null _ hs
    · exact Or.inl rfl
  have hcf : checkCol df "Finish" = .ok () ∨ checkCol df "Finish" = .error PyError.valueError := by
    unfold checkCol
    split
    · exact applyStrptime_no_null _ hf
    · exact Or.inl rfl
  unfold dateCheckRaw
  rcases hcs with hcs | hcs <;> rw [hcs]
  · exact hcf
  · exact Or.inr rfl

/-- C8 (amended): for every frame that has a `Name` column and whose
`Start`/`Finish` cells are all strings (no `None`/`NaN` entries, which
would raise an uncaught `TypeError`), `validate_plan` returns an issue
list without raising, and that list is empty exactly when the frame is
non-empty, has all required columns, has no null task names and all its
date cells parse. -/
theorem C8_amended_validate_ok (df : Frame)
    (hname : df.cols.contains "Name" = true)
    (hs : ∀ c ∈ df.col "Start", c ≠ Cell.null)
    (hf : ∀ c ∈ df.col "Finish", c ≠ Cell.null) :
    ∃ issues, validate_plan df = .ok issues ∧
      (issues = [] ↔ (¬(df.nrows = 0 ∨ df.cols = []) ∧
        required_cols.filter (fun c => !(df.cols.contains c)) = [] ∧
        (df.col "Name").any (fun c => c == Cell.null) = false ∧
        dateCheckRaw df = .ok ())) := by
  by_cases hempty : df.nrows = 0 ∨ df.cols = []
  · refine ⟨[Issue.emptyPlan], by simp [validate_plan, hempty], ?_⟩
    constructor
    · intro hE; simp at hE
    · rintro ⟨h1, -⟩; exact absurd hempty h1
  · rcases dateCheckRaw_no_null df hs hf with hdc | hdc
    · refine ⟨(if (required_cols.filter fun c => !(df.cols.contains c)).isEmpty then []
          else [Issue.missingColumns (required_cols.filter fun c => !(df.cols.contains c))]) ++
          (if (df.col "Name").any (fun c => c == Cell.null) then [Issue.emptyNames] else []),
        ?_, ?_⟩
      · simp only [validate_plan, if_neg hempty, hname, Bool.not_true, Bool.false_eq_true,
          if_false, hdc]
      · rw [List.append_eq_nil]
        constructor
        · rintro ⟨h1, h2⟩
          refine ⟨hempty, ?_, ?_, hdc⟩
          · by_cases hm : (required_cols.filter fun c => !(df.cols.contains c)).isEmpty
            · exact List.isEmpty_iff.mp hm
            · rw [if_neg hm] at h1; simp at h1
          · by_cases hn : (df.col "Name").any (fun c => c == Cell.null)
            · rw [if_pos hn] at h2; simp at h2
            · exact Bool.eq_false_iff.mpr hn
        · rintro ⟨-, h2, h3, -⟩
          constructor
          · rw [if_pos (List.isEmpty_iff.mpr h2)]
          · rw [h3]; simp
    · refine ⟨(if (required_cols.filter fun c => !(df.cols.contains c)).isEmpty then []
          else [Issue.missingColumns (required_cols.filter fun c => !(df.cols.contains c))]) ++
          (if (df.col "Name").any (fun c => c == Cell.null) then [Issue.emptyNames] else []) ++
          [Issue.invalidDate], ?_, ?_⟩
      · simp only [validate_plan, if_neg hempty, hname, Bool.not_true, Bool.false_eq_true,
          if_false, hdc]
      · constructor
        · intro hE; simp [List.append_eq_nil] at hE
        · rintro ⟨-, -, -, h4⟩
          rw [h4] at hdc
          simp at hdc

/-- The concrete well-formed validation frame for the C8 witness. -/
def fGood : Frame :=
  { cols := ["ID", "Name", "Duration", "Start", "Finish"]
    nrows := 1
    col := fun c =>
      if c = "Name" then [Cell.str (DateStr.invalid "Task A")]
      else [Cell.str (DateStr.ofDay 0)] }

/-- C8 witness: the amended theorem applied to the concrete frame
`fGood`, with all hypotheses discharged by evaluation. -/
theorem C8_witness :
    fGood.cols.contains "Name" = true ∧
      (∀ c ∈ fGood.col "Start", c ≠ Cell.null) ∧
      (∀ c ∈ fGood.col "Finish", c ≠ Cell.null) ∧
      ∃ issues, validate_plan fGood = .ok issues ∧
        (issues = [] ↔ (¬(fGood.nrows = 0 ∨ fGood.cols = []) ∧
          required_cols.filter (fun c => !(fGood.cols.contains c)) = [] ∧
          (fGood.col "Name").any (fun c => c == Cell.null) = false ∧
          dateCheckRaw fGood = .ok ())) :=
  ⟨by decide, by decide, by decide,
    C8_amended_validate_ok fGood (by decide) (by decide) (by decide)⟩

end PlanSpec
